import Mathlib

/-!
# Verification of the zbus connection core and string codec

Shallow embedding of the repository sources:

* `src/src/str.rs` — the wire codec for `&str`, `ObjectPath` and `Signature`
  (length-prefixed, NUL-terminated framing with alignment padding).
* `src/zbus/src/azync/connection.rs` — the asynchronous connection:
  the receive stream (`poll_next`), the reply correlator (`call_method`)
  and the send sink (`start_send`).

Bytes are modelled as `Nat` (values `< 256` where produced by the code),
byte buffers as `List Nat`. Rust `&str` values are modelled by their UTF-8
byte sequences together with the validity predicate `isValidUtf8`; this is
faithful because `str::from_utf8` returns a view of the same bytes and only
checks validity.
-/

/-- Modelled from the spec (utils.rs is not among the sources): the number of
zero-padding bytes inserted before a value so that its offset from message
start satisfies the alignment, i.e. the least `p` with `(n + p) % align = 0`. -/
def padding_for_n_bytes (n align : Nat) : Nat :=
  (align - n % align) % align

/-- Little-endian byte serialization of a `u32`, modelling
`u32::to_ne_bytes` on the little-endian platforms the code targets (the spec
fixes little-endian as the wire default). -/
def u32le (n : Nat) : List Nat :=
  [n % 256, n / 256 % 256, n / 65536 % 256, n / 16777216 % 256]

/-- Standard UTF-8 validity of a byte sequence, modelling the check performed
by `str::from_utf8` (Rust standard library): rejects overlong encodings,
surrogate code points and values above `0x10FFFF`. A Rust `&str` value is
exactly a byte sequence satisfying this predicate. -/
def isValidUtf8 : List Nat → Bool
  | [] => true
  | b0 :: rest =>
    if b0 < 0x80 then isValidUtf8 rest
    else if b0 < 0xC2 then false
    else if b0 < 0xE0 then
      match rest with
      | b1 :: rest1 =>
        if 0x80 ≤ b1 ∧ b1 < 0xC0 then isValidUtf8 rest1 else false
      | [] => false
    else if b0 < 0xF0 then
      match rest with
      | b1 :: b2 :: rest2 =>
        if (if b0 = 0xE0 then 0xA0 ≤ b1 ∧ b1 < 0xC0
            else if b0 = 0xED then 0x80 ≤ b1 ∧ b1 < 0xA0
            else 0x80 ≤ b1 ∧ b1 < 0xC0) ∧ 0x80 ≤ b2 ∧ b2 < 0xC0 then
          isValidUtf8 rest2
        else false
      | _ => false
    else if b0 < 0xF5 then
      match rest with
      | b1 :: b2 :: b3 :: rest3 =>
        if (if b0 = 0xF0 then 0x90 ≤ b1 ∧ b1 < 0xC0
            else if b0 = 0xF4 then 0x80 ≤ b1 ∧ b1 < 0x90
            else 0x80 ≤ b1 ∧ b1 < 0xC0) ∧
           (0x80 ≤ b2 ∧ b2 < 0xC0) ∧ (0x80 ≤ b3 ∧ b3 < 0xC0) then
          isValidUtf8 rest3
        else false
      | _ => false
    else false

/-- The codec error type (`VariantError`); only the variants exercised by
`str.rs` are modelled. -/
inductive VariantError where
  | InsufficientData
  | InvalidUtf8
  | IncorrectType
deriving DecidableEq, Repr

/-- Modelled from the spec (the trait default in variant_type.rs is not among
the sources): `ensure_correct_signature` accepts exactly the own signature
string of the type and fails otherwise. -/
def ensure_correct_signature (expected signature : String) : Except VariantError Unit :=
  if signature = expected then .ok () else .error .IncorrectType

/-- Modelled from the spec (lib.rs is not among the sources):
`ensure_sufficient_bytes` fails with `InsufficientData` when fewer bytes
remain than required. -/
def ensure_sufficient_bytes (bytes : List Nat) (n : Nat) : Except VariantError Unit :=
  if bytes.length < n then .error .InsufficientData else .ok ()

/-- Modelled from the Rust standard library semantics of `str::from_utf8`:
returns the same bytes (viewed as a `&str`) when they are valid UTF-8. -/
def str_from_utf8 (bytes : List Nat) : Except VariantError (List Nat) :=
  if isValidUtf8 bytes then .ok bytes else .error .InvalidUtf8

/-- The function `<&str as VariantType>::encode` (src/src/str.rs:12-24): alignment-4
padding, 4-byte native(=little)-endian length prefix, UTF-8 payload, NUL. -/
def Str.encode (v : List Nat) (n_bytes_before : Nat) : List Nat :=
  List.replicate (padding_for_n_bytes n_bytes_before 4) 0
    ++ u32le v.length ++ v ++ [0]

/-- The function `<&str as VariantType>::decode` (src/src/str.rs:38-44): checks the
signature, requires at least 4 bytes, then takes `bytes[4 .. len - 1]` and
validates it as UTF-8. The length prefix is not read; the extent of the
slice determines the payload. (For an input of exactly 4 bytes the Rust
slice `bytes[4..3]` would panic; no claim exercises that input.) -/
def Str.decode (bytes : List Nat) (signature : String) : Except VariantError (List Nat) :=
  match ensure_correct_signature "s" signature with
  | .error e => .error e
  | .ok _ =>
    match ensure_sufficient_bytes bytes 4 with
    | .error e => .error e
    | .ok _ =>
      let last_index := bytes.length - 1
      str_from_utf8 ((bytes.take last_index).drop 4)

/-- The type `ObjectPath` (src/src/str.rs:48): a newtype over a `&str` value. -/
structure ObjectPath where
  path : List Nat
deriving DecidableEq, Repr

/-- The function `<ObjectPath as VariantType>::encode` (src/src/str.rs:66-68): delegates to
the `&str` encoder. -/
def ObjectPath.encode (v : ObjectPath) (n_bytes_before : Nat) : List Nat :=
  Str.encode v.path n_bytes_before

/-- The function `<ObjectPath as VariantType>::decode` (src/src/str.rs:75-78): checks the
`o` signature then decodes as a `&str` and wraps the result. -/
def ObjectPath.decode (bytes : List Nat) (signature : String) : Except VariantError ObjectPath :=
  match ensure_correct_signature "o" signature with
  | .error e => .error e
  | .ok _ => (Str.decode bytes "s").map ObjectPath.mk

/-- The type `Signature` (src/src/str.rs:82): a newtype over a `&str` value. -/
structure Signature where
  sig : List Nat
deriving DecidableEq, Repr

/-- The function `<Signature as VariantType>::encode` (src/src/str.rs:101-110): one-byte
length prefix (`len as u8`), the ASCII bytes, a trailing NUL; no padding
(alignment 1), the offset argument is ignored. -/
def Signature.encode (v : Signature) (_n_bytes_before : Nat) : List Nat :=
  (v.sig.length % 256) :: v.sig ++ [0]

/-- The function `<Signature as VariantType>::decode` (src/src/str.rs:126-136): checks the
signature, requires at least 1 byte, takes `bytes[1 .. len - 1]`, validates
UTF-8 and wraps. The length prefix byte is not read. -/
def Signature.decode (bytes : List Nat) (signature : String) : Except VariantError Signature :=
  match ensure_correct_signature "g" signature with
  | .error e => .error e
  | .ok _ =>
    if bytes.length < 1 then .error .InsufficientData
    else
      let last_index := bytes.length - 1
      (str_from_utf8 ((bytes.take last_index).drop 1)).map Signature.mk

deriving instance DecidableEq for Except

/-- The UTF-8 bytes of `"hello"`. -/
def helloBytes : List Nat := [104, 101, 108, 108, 111]

example : isValidUtf8 helloBytes = true := by decide

example : Str.encode helloBytes 0 = [5, 0, 0, 0, 104, 101, 108, 108, 111, 0] := by decide

example : Str.decode [5, 0, 0, 0, 104, 101, 108, 108, 111, 0] "s" = .ok helloBytes := by decide

example : Str.decode (Str.encode helloBytes 1) "s"
    = .ok [0, 0, 0, 104, 101, 108, 108, 111] := by decide

/-! ## The asynchronous connection (src/zbus/src/azync/connection.rs)

The connection state relevant to the claims is the bounded in-queue
(`Vec<Message>` behind `in_queue_lock`; the `Vec` type is forced by the
source: `queue.append(&mut tmp_queue)` takes a `&mut Vec<Message>` and
`queue.pop()` removes the last element) and the socket. Socket behaviour is
modelled as a trace of events that `try_receive_message` produces when the
reader polls it: a parsed message, a `BrokenPipe` (peer closed), or another
receive error. `WouldBlock` results are invisible in the trace: `poll_next`
loops on them without yielding, so a trace position either yields or, when
the trace is exhausted, the poll is `Pending` (a suspension point). -/

/-- The zbus message type enum `MessageType`. -/
inductive MessageType where
  | Invalid
  | MethodCall
  | MethodReturn
  | Error
  | Signal
deriving DecidableEq, Repr

/-- A parsed D-Bus message, restricted to the header fields and payload the
connection logic inspects: the type, the ReplySerial field, the ErrorName
field, the body and the attached file descriptors. -/
structure Message where
  msgType : MessageType
  replySerial : Option Nat
  errorName : Option String
  body : List Nat
  fds : List Nat
deriving DecidableEq, Repr

/-- The type `std::io::ErrorKind`, restricted to the kinds the connection matches on. -/
inductive IoKind where
  | BrokenPipe
  | Other (code : Nat)
deriving DecidableEq, Repr

/-- The zbus `Error` type, restricted to the variants the claims mention;
`Recv` stands for any non-`Io(BrokenPipe)` error surfaced while receiving
(codec failures and the like), kept abstract as a code. -/
inductive ZbusError where
  | Io (k : IoKind)
  | MethodError (name : Option String) (body : List Nat)
  | Unsupported
  | Recv (code : Nat)
deriving DecidableEq, Repr

/-- Modelled from the spec (error.rs is not among the sources): converting an
Error-typed message into an error value yields `MethodError { name, body }`
with the ErrorName and body of that message (`Err(m.into())` in `call_method`). -/
def Message.intoError (m : Message) : ZbusError :=
  .MethodError m.errorName m.body

/-- One observable outcome of polling `try_receive_message`: a parsed
message, `BrokenPipe` (socket closed), or another receive error. -/
inductive SockEvent where
  | msg (m : Message)
  | closed
  | fail (code : Nat)
deriving DecidableEq, Repr

/-- The method `Vec::pop` (Rust standard library): removes and returns the **last**
element, or `none` for the empty vector. -/
def popVec {α : Type} (l : List α) : Option (α × List α) :=
  match l.getLast? with
  | none => none
  | some a => some (a, l.dropLast)

/-- The result of one `poll_next` call: `Pending` (suspension) or
`Ready (item)` where `item = none` is end-of-stream. -/
inductive PollResult where
  | pending
  | ready (item : Option (Except ZbusError Message))
deriving DecidableEq

/-- The stream poll `<&Connection as Stream>::poll_next` (connection.rs:535-559) as a state
transformer: pop the in-queue first (from the back, `Vec::pop`); only when
the queue is empty read the socket, where a message or error is yielded,
`BrokenPipe` ends the stream, and an exhausted trace means `Pending`.
Returns the poll result together with the updated queue and socket trace. -/
def pollNext (queue : List Message) (sock : List SockEvent) :
    PollResult × List Message × List SockEvent :=
  match popVec queue with
  | some (m, q) => (.ready (some (.ok m)), q, sock)
  | none =>
    match sock with
    | [] => (.pending, [], [])
    | .msg m :: rest => (.ready (some (.ok m)), [], rest)
    | .closed :: rest => (.ready none, [], rest)
    | .fail e :: rest => (.ready (some (.error (.Recv e))), [], rest)

/-- How a run of the reply-wait loop of `call_method` ends: with the result
of `call_method` (`done`), or still waiting at a suspension point
(`suspended`, reached when the event trace is exhausted). -/
inductive CallResult where
  | done (r : Except ZbusError Message)
  | suspended
deriving DecidableEq, Repr

/-- Final state of a run of the reply-wait loop: its outcome, the in-queue
contents, and the contents of the local `tmp_queue` at exit (messages
drained but not flushed to the in-queue). -/
structure CallState where
  result : CallResult
  queue : List Message
  tmp : List Message
deriving DecidableEq, Repr

theorem popVec_nil {α : Type} : popVec ([] : List α) = none := rfl

theorem popVec_concat {α : Type} (l : List α) (a : α) :
    popVec (l ++ [a]) = some (a, l) := by
  simp [popVec, List.getLast?_concat, List.dropLast_concat]

theorem popVec_eq_none {α : Type} {l : List α} (h : popVec l = none) : l = [] := by
  cases l with
  | nil => rfl
  | cons x xs =>
    exfalso
    rw [popVec, List.getLast?_eq_getLast (x :: xs) (by simp)] at h
    simp at h

theorem popVec_eq_some {α : Type} {l q : List α} {a : α}
    (h : popVec l = some (a, q)) : l = q ++ [a] := by
  rw [popVec] at h
  cases hg : l.getLast? with
  | none => rw [hg] at h; simp at h
  | some b =>
    rw [hg] at h
    simp only [Option.some.injEq, Prod.mk.injEq] at h
    obtain ⟨hab, hq⟩ := h
    subst hab
    subst hq
    have hne : l ≠ [] := by
      intro hl; subst hl; simp at hg
    have := List.dropLast_append_getLast hne
    rw [List.getLast?_eq_getLast l hne] at hg
    simp only [Option.some.injEq] at hg
    rw [hg] at this
    exact this.symm

/-- Case analysis for a successful `poll_next` yield: the message came off
the back of the queue (socket untouched), or the queue was empty and it came
off the socket. -/
theorem pollNext_ok {queue q : List Message} {sock s : List SockEvent} {m : Message}
    (h : pollNext queue sock = (.ready (some (.ok m)), q, s)) :
    (queue = q ++ [m] ∧ s = sock) ∨ (queue = [] ∧ q = [] ∧ sock = .msg m :: s) := by
  rw [pollNext.eq_def] at h
  split at h
  · rename_i m1 q1 hp
    simp only [Prod.mk.injEq, PollResult.ready.injEq, Option.some.injEq,
      Except.ok.injEq] at h
    obtain ⟨h1, h2, h3⟩ := h
    subst h1
    subst h2
    subst h3
    exact .inl ⟨popVec_eq_some hp, rfl⟩
  · rename_i hp
    split at h
    · simp at h
    · rename_i m1 rest
      simp only [Prod.mk.injEq, PollResult.ready.injEq, Option.some.injEq,
        Except.ok.injEq] at h
      obtain ⟨h1, h2, h3⟩ := h
      subst h1
      subst h2
      subst h3
      exact .inr ⟨popVec_eq_none hp, rfl, rfl⟩
    · simp at h
    · simp at h

/-- The reply-wait loop of `Connection::call_method` (connection.rs:230-252),
composed with the stream it privately consumes (`try_next`, i.e. `poll_next`
mapped through `TryStreamExt`): a yielded message that does not carry the
awaited ReplySerial is retained in the local `tmp_queue` when the in-queue
length plus the `tmp_queue` length is below `maxQ`, and dropped otherwise; a
matching message first flushes `tmp_queue` into the in-queue, then an
Error-typed match fails with `m.into()`, a MethodReturn match succeeds, and
any other match is discarded and the loop continues. End-of-stream fails
with `Io(BrokenPipe)`; a stream error propagates (the `?` operator); an
exhausted trace is a suspension point. -/
def callLoop (serial maxQ : Nat) (queue : List Message) (sock : List SockEvent)
    (tmp : List Message) : CallState :=
  match hp : pollNext queue sock with
  | (.pending, q, _) => ⟨.suspended, q, tmp⟩
  | (.ready none, q, _) => ⟨.done (.error (.Io .BrokenPipe)), q, tmp⟩
  | (.ready (some (.error e)), q, _) => ⟨.done (.error e), q, tmp⟩
  | (.ready (some (.ok m)), q, s) =>
    if m.replySerial ≠ some serial then
      callLoop serial maxQ q s
        (if q.length + tmp.length < maxQ then tmp ++ [m] else tmp)
    else
      match m.msgType with
      | .Error => ⟨.done (.error m.intoError), q ++ tmp, []⟩
      | .MethodReturn => ⟨.done (.ok m), q ++ tmp, []⟩
      | _ => callLoop serial maxQ (q ++ tmp) s []
termination_by (sock.length, queue.length + tmp.length, queue.length)
decreasing_by
  all_goals simp_wf
  all_goals rcases pollNext_ok hp with ⟨hq, hs⟩ | ⟨hq, hq2, hs⟩
  all_goals subst hq
  all_goals subst hs
  all_goals try subst hq2
  all_goals simp only [Prod.lex_def, List.length_append, List.length_cons,
    List.length_nil, apply_ite List.length, true_and, and_true]
  all_goals try split
  all_goals omega

/-- The reply-wait phase of `call_method` as entered after the call is sent:
the local `tmp_queue` starts out empty (`let mut tmp_queue = vec![]`). -/
def callMethodWait (serial maxQ : Nat) (queue : List Message)
    (sock : List SockEvent) : CallState :=
  callLoop serial maxQ queue sock []

/-- The sink method `<&Connection as Sink>::start_send` (connection.rs:468-477): sending a
message carrying file descriptors on a connection without the fd-passing
capability fails `Unsupported` before touching the outbound buffer;
otherwise the message is appended to the outbound queue
(`enqueue_message`, modelled from the spec at message granularity since
raw.rs is not among the sources). -/
def start_send (cap_unix_fd : Bool) (msg : Message) (outbound : List Message) :
    Except ZbusError Unit × List Message :=
  if msg.fds ≠ [] ∧ cap_unix_fd = false then (.error .Unsupported, outbound)
  else (.ok (), outbound ++ [msg])

theorem pollNext_nil_nil : pollNext [] [] = (.pending, [], []) := rfl

theorem pollNext_nil_msg (m : Message) (rest : List SockEvent) :
    pollNext [] (.msg m :: rest) = (.ready (some (.ok m)), [], rest) := rfl

theorem pollNext_nil_closed (rest : List SockEvent) :
    pollNext [] (.closed :: rest) = (.ready none, [], rest) := rfl

theorem pollNext_nil_fail (e : Nat) (rest : List SockEvent) :
    pollNext [] (.fail e :: rest) = (.ready (some (.error (.Recv e))), [], rest) := rfl

theorem pollNext_concat (q : List Message) (m : Message) (sock : List SockEvent) :
    pollNext (q ++ [m]) sock = (.ready (some (.ok m)), q, sock) := by
  rw [pollNext.eq_def, popVec_concat]

theorem callLoop_eq_pending {queue q : List Message} {sock s : List SockEvent}
    (serial maxQ : Nat) (tmp : List Message)
    (h : pollNext queue sock = (.pending, q, s)) :
    callLoop serial maxQ queue sock tmp = ⟨.suspended, q, tmp⟩ := by
  rw [callLoop.eq_def]
  split <;> rename_i heq <;> rw [h] at heq <;>
    simp only [Prod.mk.injEq, PollResult.ready.injEq, Option.some.injEq,
      Except.ok.injEq, Except.error.injEq, reduceCtorEq, false_and, and_false,
      true_and, and_true] at heq
  obtain ⟨h1, h2⟩ := heq
  subst h1
  rfl

theorem callLoop_eq_endOfStream {queue q : List Message} {sock s : List SockEvent}
    (serial maxQ : Nat) (tmp : List Message)
    (h : pollNext queue sock = (.ready none, q, s)) :
    callLoop serial maxQ queue sock tmp = ⟨.done (.error (.Io .BrokenPipe)), q, tmp⟩ := by
  rw [callLoop.eq_def]
  split <;> rename_i heq <;> rw [h] at heq <;>
    simp only [Prod.mk.injEq, PollResult.ready.injEq, Option.some.injEq,
      Except.ok.injEq, Except.error.injEq, reduceCtorEq, false_and, and_false,
      true_and, and_true] at heq
  obtain ⟨h1, h2⟩ := heq
  subst h1
  rfl

theorem callLoop_eq_streamError {queue q : List Message} {sock s : List SockEvent}
    {e : ZbusError} (serial maxQ : Nat) (tmp : List Message)
    (h : pollNext queue sock = (.ready (some (.error e)), q, s)) :
    callLoop serial maxQ queue sock tmp = ⟨.done (.error e), q, tmp⟩ := by
  rw [callLoop.eq_def]
  split <;> rename_i heq <;> rw [h] at heq <;>
    simp only [Prod.mk.injEq, PollResult.ready.injEq, Option.some.injEq,
      Except.ok.injEq, Except.error.injEq, reduceCtorEq, false_and, and_false,
      true_and, and_true] at heq
  obtain ⟨h1, h2, h3⟩ := heq
  subst h1
  subst h2
  rfl

theorem callLoop_eq_nonMatching {queue q : List Message} {sock s : List SockEvent}
    {m : Message} (serial maxQ : Nat) (tmp : List Message)
    (h : pollNext queue sock = (.ready (some (.ok m)), q, s))
    (hm : m.replySerial ≠ some serial) :
    callLoop serial maxQ queue sock tmp =
      callLoop serial maxQ q s
        (if q.length + tmp.length < maxQ then tmp ++ [m] else tmp) := by
  rw [callLoop.eq_def]
  split <;> rename_i heq <;> rw [h] at heq <;>
    simp only [Prod.mk.injEq, PollResult.ready.injEq, Option.some.injEq,
      Except.ok.injEq, Except.error.injEq, reduceCtorEq, false_and, and_false,
      true_and, and_true] at heq
  obtain ⟨h1, h2, h3⟩ := heq
  subst h1
  subst h2
  subst h3
  rw [if_pos hm]

theorem callLoop_eq_matchError {queue q : List Message} {sock s : List SockEvent}
    {m : Message} (serial maxQ : Nat) (tmp : List Message)
    (h : pollNext queue sock = (.ready (some (.ok m)), q, s))
    (hm : m.replySerial = some serial) (ht : m.msgType = .Error) :
    callLoop serial maxQ queue sock tmp =
      ⟨.done (.error (.MethodError m.errorName m.body)), q ++ tmp, []⟩ := by
  rw [callLoop.eq_def]
  split <;> rename_i heq <;> rw [h] at heq <;>
    simp only [Prod.mk.injEq, PollResult.ready.injEq, Option.some.injEq,
      Except.ok.injEq, Except.error.injEq, reduceCtorEq, false_and, and_false,
      true_and, and_true] at heq
  obtain ⟨h1, h2, h3⟩ := heq
  subst h1
  subst h2
  subst h3
  rw [if_neg (by simp [hm])]
  rw [ht]
  rfl

theorem callLoop_eq_matchReturn {queue q : List Message} {sock s : List SockEvent}
    {m : Message} (serial maxQ : Nat) (tmp : List Message)
    (h : pollNext queue sock = (.ready (some (.ok m)), q, s))
    (hm : m.replySerial = some serial) (ht : m.msgType = .MethodReturn) :
    callLoop serial maxQ queue sock tmp = ⟨.done (.ok m), q ++ tmp, []⟩ := by
  rw [callLoop.eq_def]
  split <;> rename_i heq <;> rw [h] at heq <;>
    simp only [Prod.mk.injEq, PollResult.ready.injEq, Option.some.injEq,
      Except.ok.injEq, Except.error.injEq, reduceCtorEq, false_and, and_false,
      true_and, and_true] at heq
  obtain ⟨h1, h2, h3⟩ := heq
  subst h1
  subst h2
  subst h3
  rw [if_neg (by simp [hm])]
  rw [ht]

theorem callLoop_eq_matchOther {queue q : List Message} {sock s : List SockEvent}
    {m : Message} (serial maxQ : Nat) (tmp : List Message)
    (h : pollNext queue sock = (.ready (some (.ok m)), q, s))
    (hm : m.replySerial = some serial)
    (ht1 : m.msgType ≠ .Error) (ht2 : m.msgType ≠ .MethodReturn) :
    callLoop serial maxQ queue sock tmp = callLoop serial maxQ (q ++ tmp) s [] := by
  rw [callLoop.eq_def]
  split <;> rename_i heq <;> rw [h] at heq <;>
    simp only [Prod.mk.injEq, PollResult.ready.injEq, Option.some.injEq,
      Except.ok.injEq, Except.error.injEq, reduceCtorEq, false_and, and_false,
      true_and, and_true] at heq
  obtain ⟨h1, h2, h3⟩ := heq
  subst h1
  subst h2
  subst h3
  rw [if_neg (by simp [hm])]
  cases hmt : m.msgType with
  | Error => exact absurd hmt ht1
  | MethodReturn => exact absurd hmt ht2
  | Invalid => rfl
  | MethodCall => rfl
  | Signal => rfl

theorem pollNext_pending {queue q : List Message} {sock s : List SockEvent}
    (h : pollNext queue sock = (.pending, q, s)) :
    queue = [] ∧ q = [] ∧ sock = [] ∧ s = [] := by
  rw [pollNext.eq_def] at h
  split at h
  · simp at h
  · rename_i hp
    split at h
    · simp only [Prod.mk.injEq, true_and] at h
      exact ⟨popVec_eq_none hp, h.1.symm, rfl, h.2.symm⟩
    · simp at h
    · simp at h
    · simp at h

theorem pollNext_endOfStream {queue q : List Message} {sock s : List SockEvent}
    (h : pollNext queue sock = (.ready none, q, s)) :
    queue = [] ∧ q = [] ∧ sock = .closed :: s := by
  rw [pollNext.eq_def] at h
  split at h
  · simp at h
  · rename_i hp
    split at h
    · simp at h
    · simp at h
    · rename_i rest
      simp only [Prod.mk.injEq, true_and] at h
      exact ⟨popVec_eq_none hp, h.1.symm, by rw [h.2]⟩
    · simp at h

theorem pollNext_error {queue q : List Message} {sock s : List SockEvent}
    {e : ZbusError} (h : pollNext queue sock = (.ready (some (.error e)), q, s)) :
    queue = [] ∧ q = [] ∧ ∃ c, e = .Recv c ∧ sock = .fail c :: s := by
  rw [pollNext.eq_def] at h
  split at h
  · simp at h
  · rename_i hp
    split at h
    · simp at h
    · simp at h
    · simp at h
    · rename_i c rest
      simp only [Prod.mk.injEq, PollResult.ready.injEq, Option.some.injEq,
        Except.error.injEq] at h
      obtain ⟨h1, h2, h3⟩ := h
      exact ⟨popVec_eq_none hp, h2.symm, c, h1.symm, by rw [h3]⟩

/-- A matching Error-typed reply carrying name `n` and body `b` is present
among the message sources of a run of the reply-wait loop: the in-queue, the
local temporary queue, or the socket trace. -/
def replyObserved (serial : Nat) (queue tmp : List Message) (sock : List SockEvent)
    (n : Option String) (b : List Nat) : Prop :=
  ∃ m, (m ∈ queue ∨ m ∈ tmp ∨ SockEvent.msg m ∈ sock) ∧
    m.replySerial = some serial ∧ m.msgType = .Error ∧
    n = m.errorName ∧ b = m.body

/-- What `call_method` guarantees about a completed reply-wait run: a
successful result is a MethodReturn carrying the awaited ReplySerial, and a
`MethodError` result comes from an observed matching Error message whose
name and body it carries. Other errors carry no obligation here. -/
def doneSpec (serial : Nat) (queue tmp : List Message) (sock : List SockEvent) :
    Except ZbusError Message → Prop
  | .ok m => m.replySerial = some serial ∧ m.msgType = .MethodReturn
  | .error (.MethodError n b) => replyObserved serial queue tmp sock n b
  | .error _ => True

theorem doneSpec_mono {serial : Nat} {q1 t1 q2 t2 : List Message}
    {s1 s2 : List SockEvent} {r : Except ZbusError Message}
    (h : ∀ m, (m ∈ q1 ∨ m ∈ t1 ∨ SockEvent.msg m ∈ s1) →
      (m ∈ q2 ∨ m ∈ t2 ∨ SockEvent.msg m ∈ s2))
    (hs : doneSpec serial q1 t1 s1 r) : doneSpec serial q2 t2 s2 r := by
  cases r with
  | ok m => exact hs
  | error e =>
    cases e with
    | MethodError n b =>
      obtain ⟨m, hmem, hrest⟩ := hs
      exact ⟨m, h m hmem, hrest⟩
    | Io k => trivial
    | Unsupported => trivial
    | Recv c => trivial

theorem callLoop_done_spec (serial maxQ : Nat) (queue : List Message)
    (sock : List SockEvent) (tmp : List Message) :
    ∀ r, (callLoop serial maxQ queue sock tmp).result = .done r →
      doneSpec serial queue tmp sock r := by
  induction queue, sock, tmp using callLoop.induct serial maxQ with
  | case1 queue sock tmp q s hp =>
    intro r hr
    rw [callLoop_eq_pending serial maxQ tmp hp] at hr
    simp at hr
  | case2 queue sock tmp q s hp =>
    intro r hr
    rw [callLoop_eq_endOfStream serial maxQ tmp hp] at hr
    have hr2 : Except.error (ZbusError.Io .BrokenPipe) = r := by simpa using hr
    subst hr2
    trivial
  | case3 queue sock tmp e q s hp =>
    intro r hr
    rw [callLoop_eq_streamError serial maxQ tmp hp] at hr
    have hr2 : Except.error e = r := by simpa using hr
    subst hr2
    obtain ⟨hq, hq2, c, hc, hs⟩ := pollNext_error hp
    subst hc
    trivial
  | case4 queue sock tmp m q s hp hm ih =>
    intro r hr
    rw [callLoop_eq_nonMatching serial maxQ tmp hp hm] at hr
    simp only [dite_eq_ite] at ih
    have hspec := ih r hr
    refine doneSpec_mono ?_ hspec
    intro m2 hm2
    rcases pollNext_ok hp with ⟨hq, hs⟩ | ⟨hq, hq2, hs⟩
    · subst hq
      subst hs
      rcases hm2 with h1 | h2 | h3
      · exact Or.inl (List.mem_append_left _ h1)
      · by_cases hc : q.length + tmp.length < maxQ
        · rw [if_pos hc] at h2
          rcases List.mem_append.mp h2 with h2a | h2b
          · exact Or.inr (Or.inl h2a)
          · simp only [List.mem_singleton] at h2b
            subst h2b
            exact Or.inl (by simp)
        · rw [if_neg hc] at h2
          exact Or.inr (Or.inl h2)
      · exact Or.inr (Or.inr h3)
    · subst hq
      subst hq2
      subst hs
      rcases hm2 with h1 | h2 | h3
      · simp at h1
      · by_cases hc : List.length ([] : List Message) + tmp.length < maxQ
        · rw [if_pos hc] at h2
          rcases List.mem_append.mp h2 with h2a | h2b
          · exact Or.inr (Or.inl h2a)
          · simp only [List.mem_singleton] at h2b
            subst h2b
            exact Or.inr (Or.inr (by simp))
        · rw [if_neg hc] at h2
          exact Or.inr (Or.inl h2)
      · exact Or.inr (Or.inr (List.mem_cons_of_mem _ h3))
  | case5 queue sock tmp m q s hp hm ht =>
    intro r hr
    have hm2 : m.replySerial = some serial := not_not.mp hm
    rw [callLoop_eq_matchError serial maxQ tmp hp hm2 ht] at hr
    have hr2 : Except.error (ZbusError.MethodError m.errorName m.body) = r := by
      simpa using hr
    subst hr2
    refine ⟨m, ?_, hm2, ht, rfl, rfl⟩
    rcases pollNext_ok hp with ⟨hq, hs⟩ | ⟨hq, hq2, hs⟩
    · rw [hq]
      exact Or.inl (by simp)
    · rw [hs]
      exact Or.inr (Or.inr (by simp))
  | case6 queue sock tmp m q s hp hm ht =>
    intro r hr
    have hm2 : m.replySerial = some serial := not_not.mp hm
    rw [callLoop_eq_matchReturn serial maxQ tmp hp hm2 ht] at hr
    have hr2 : Except.ok m = r := by simpa using hr
    subst hr2
    exact ⟨hm2, ht⟩
  | case7 queue sock tmp m q s hp hm ht1 ht2 ih =>
    intro r hr
    have hm2 : m.replySerial = some serial := not_not.mp hm
    rw [callLoop_eq_matchOther serial maxQ tmp hp hm2
      (fun hc => ht1 hc) (fun hc => ht2 hc)] at hr
    have hspec := ih r hr
    refine doneSpec_mono ?_ hspec
    intro m2 hm2
    rcases pollNext_ok hp with ⟨hq, hs⟩ | ⟨hq, hq2, hs⟩
    · subst hq
      subst hs
      rcases hm2 with h1 | h2 | h3
      · rcases List.mem_append.mp h1 with h1a | h1b
        · exact Or.inl (List.mem_append_left _ h1a)
        · exact Or.inr (Or.inl h1b)
      · simp at h2
      · exact Or.inr (Or.inr h3)
    · subst hq
      subst hq2
      subst hs
      rcases hm2 with h1 | h2 | h3
      · simp only [List.nil_append] at h1
        exact Or.inr (Or.inl h1)
      · simp at h2
      · exact Or.inr (Or.inr (List.mem_cons_of_mem _ h3))

theorem callLoop_queue_le (serial maxQ : Nat) (queue : List Message)
    (sock : List SockEvent) (tmp : List Message) :
    (callLoop serial maxQ queue sock tmp).queue.length ≤
      max maxQ (queue.length + tmp.length) := by
  induction queue, sock, tmp using callLoop.induct serial maxQ with
  | case1 queue sock tmp q s hp =>
    rw [callLoop_eq_pending serial maxQ tmp hp]
    obtain ⟨h1, h2, h3, h4⟩ := pollNext_pending hp
    subst h2
    simp
  | case2 queue sock tmp q s hp =>
    rw [callLoop_eq_endOfStream serial maxQ tmp hp]
    obtain ⟨h1, h2, h3⟩ := pollNext_endOfStream hp
    subst h2
    simp
  | case3 queue sock tmp e q s hp =>
    rw [callLoop_eq_streamError serial maxQ tmp hp]
    obtain ⟨h1, h2, hc⟩ := pollNext_error hp
    subst h2
    simp
  | case4 queue sock tmp m q s hp hm ih =>
    rw [callLoop_eq_nonMatching serial maxQ tmp hp hm]
    simp only [dite_eq_ite] at ih
    refine le_trans ih ?_
    rcases pollNext_ok hp with ⟨hq, hs⟩ | ⟨hq, hq2, hs⟩
    · subst hq
      by_cases hc : q.length + tmp.length < maxQ
      · rw [if_pos hc]
        simp only [List.length_append, List.length_cons, List.length_nil]
        omega
      · rw [if_neg hc]
        simp only [List.length_append, List.length_cons, List.length_nil]
        omega
    · subst hq
      subst hq2
      by_cases hc : List.length ([] : List Message) + tmp.length < maxQ
      · rw [if_pos hc]
        simp only [List.length_append, List.length_cons, List.length_nil] at hc ⊢
        omega
      · rw [if_neg hc]
  | case5 queue sock tmp m q s hp hm ht =>
    have hm2 : m.replySerial = some serial := not_not.mp hm
    rw [callLoop_eq_matchError serial maxQ tmp hp hm2 ht]
    rcases pollNext_ok hp with ⟨hq, hs⟩ | ⟨hq, hq2, hs⟩
    · subst hq
      simp only [List.length_append, List.length_cons, List.length_nil]
      omega
    · subst hq
      subst hq2
      simp only [List.length_append, List.length_cons, List.length_nil,
        Nat.zero_add, Nat.add_zero]
      omega
  | case6 queue sock tmp m q s hp hm ht =>
    have hm2 : m.replySerial = some serial := not_not.mp hm
    rw [callLoop_eq_matchReturn serial maxQ tmp hp hm2 ht]
    rcases pollNext_ok hp with ⟨hq, hs⟩ | ⟨hq, hq2, hs⟩
    · subst hq
      simp only [List.length_append, List.length_cons, List.length_nil]
      omega
    · subst hq
      subst hq2
      simp only [List.length_append, List.length_cons, List.length_nil,
        Nat.zero_add, Nat.add_zero]
      omega
  | case7 queue sock tmp m q s hp hm ht1 ht2 ih =>
    have hm2 : m.replySerial = some serial := not_not.mp hm
    rw [callLoop_eq_matchOther serial maxQ tmp hp hm2
      (fun hc => ht1 hc) (fun hc => ht2 hc)]
    refine le_trans ih ?_
    rcases pollNext_ok hp with ⟨hq, hs⟩ | ⟨hq, hq2, hs⟩
    · subst hq
      simp only [List.length_append, List.length_cons, List.length_nil]
      omega
    · subst hq
      subst hq2
      simp only [List.length_append, List.length_cons, List.length_nil,
        Nat.zero_add, Nat.add_zero]
      omega

/-! ## Codec round-trip lemmas -/

theorem Str.encode_drop_padding (v : List Nat) (offset : Nat) :
    (Str.encode v offset).drop (padding_for_n_bytes offset 4)
      = u32le v.length ++ (v ++ [0]) := by
  rw [Str.encode, List.append_assoc, List.append_assoc]
  exact List.drop_left' (List.length_replicate _ _)

theorem str_decode_frame (v : List Nat) (n : Nat) (hv : isValidUtf8 v = true) :
    Str.decode (u32le n ++ (v ++ [0])) "s" = .ok v := by
  have hsig : ensure_correct_signature "s" "s" = .ok () := rfl
  have hlen : (u32le n ++ (v ++ [0])).length = v.length + 5 := by
    simp only [u32le, List.length_append, List.length_cons, List.length_nil]
    omega
  have hsuff : ensure_sufficient_bytes (u32le n ++ (v ++ [0])) 4 = .ok () := by
    rw [ensure_sufficient_bytes, hlen, if_neg (by omega)]
  have hslice :
      ((u32le n ++ (v ++ [0])).take ((u32le n ++ (v ++ [0])).length - 1)).drop 4 = v := by
    rw [hlen]
    have h1 : v.length + 5 - 1 = (u32le n).length + v.length := by
      simp only [u32le, List.length_cons, List.length_nil]
      omega
    rw [h1, List.take_append, List.take_left]
    exact List.drop_left' rfl
  simp only [Str.decode, hsig, hsuff]
  rw [hslice, str_from_utf8, if_pos hv]

theorem signature_decode_frame (v : List Nat) (b0 : Nat) (hv : isValidUtf8 v = true) :
    Signature.decode ((b0 :: v) ++ [0]) "g" = .ok ⟨v⟩ := by
  have hsig : ensure_correct_signature "g" "g" = .ok () := rfl
  have hlen : ((b0 :: v) ++ [0]).length = v.length + 2 := by
    simp only [List.length_append, List.length_cons, List.length_nil]
  have hslice :
      (((b0 :: v) ++ [0]).take (((b0 :: v) ++ [0]).length - 1)).drop 1 = v := by
    rw [hlen]
    have h1 : v.length + 2 - 1 = (b0 :: v).length := by
      simp only [List.length_cons]
      omega
    rw [h1, List.take_left]
    rfl
  simp only [Signature.decode, hsig]
  rw [if_neg (by rw [hlen]; omega)]
  rw [hslice, str_from_utf8, if_pos hv]
  rfl

/-- The ASCII bytes of the signature string `a{sv}`:
`a` `{` `s` `v` `}` (five characters). -/
def sigASV : List Nat := [0x61, 0x7B, 0x73, 0x76, 0x7D]

/-- C4: the claim states decode(encode(v, offset), offset) = v for string,
object path and signature values at every offset in [0, 16). This is false
for strings and object paths: `decode` never skips the alignment padding
that `encode` emits, so at offsets that are not multiples of 4 the decoded
payload is shifted. Counterexample at offset 1 with the string `hello`. -/
theorem C4_cx_roundtrip_padding_not_skipped :
    (1 : Nat) < 16 ∧ isValidUtf8 helloBytes = true ∧
    Str.decode (Str.encode helloBytes 1) "s" ≠ .ok helloBytes := by decide

/-- C4 (amended): for every string, object path or signature value `v` (a
valid UTF-8 byte sequence) and offset in [0, 16), decoding the encoding
after skipping the alignment padding returns `v`; for signatures
(alignment 1, no padding) the encoding decodes directly. -/
theorem C4_amended_roundtrip_after_padding (v : List Nat) (offset : Nat)
    (hv : isValidUtf8 v = true) (_hoff : offset < 16) :
    Str.decode ((Str.encode v offset).drop (padding_for_n_bytes offset 4)) "s" = .ok v ∧
    ObjectPath.decode ((ObjectPath.encode ⟨v⟩ offset).drop (padding_for_n_bytes offset 4)) "o"
      = .ok ⟨v⟩ ∧
    Signature.decode (Signature.encode ⟨v⟩ offset) "g" = .ok ⟨v⟩ := by
  have hs : Str.decode ((Str.encode v offset).drop (padding_for_n_bytes offset 4)) "s"
      = .ok v := by
    rw [Str.encode_drop_padding]
    exact str_decode_frame v v.length hv
  refine ⟨hs, ?_, ?_⟩
  · have hsig : ensure_correct_signature "o" "o" = .ok () := rfl
    simp only [ObjectPath.decode, ObjectPath.encode, hsig, hs, Except.map]
  · exact signature_decode_frame v (v.length % 256) hv

/-- Witness for C4 (amended) at the string `hello` and offset 3. -/
theorem C4_witness :
    Str.decode ((Str.encode helloBytes 3).drop (padding_for_n_bytes 3 4)) "s"
      = .ok helloBytes ∧
    ObjectPath.decode ((ObjectPath.encode ⟨helloBytes⟩ 3).drop (padding_for_n_bytes 3 4)) "o"
      = .ok ⟨helloBytes⟩ ∧
    Signature.decode (Signature.encode ⟨helloBytes⟩ 3) "g" = .ok ⟨helloBytes⟩ :=
  C4_amended_roundtrip_after_padding helloBytes 3 (by decide) (by decide)

/-- C5: the claim states `Signature("a{sv}")` encodes to
`04 61 7B 73 76 7D 00`. The signature string has five characters, and the
code writes `self.0.len() as u8` as the length prefix, so the first byte is
`05`, not `04`. -/
theorem C5_cx_signature_length_byte :
    Signature.encode ⟨sigASV⟩ 0 = [0x05, 0x61, 0x7B, 0x73, 0x76, 0x7D, 0x00] ∧
    Signature.encode ⟨sigASV⟩ 0 ≠ [0x04, 0x61, 0x7B, 0x73, 0x76, 0x7D, 0x00] := by decide

/-- C5 (amended): encoding the signature value `a{sv}` at any offset
produces exactly the seven bytes `05 61 7B 73 76 7D 00`: a one-byte length
prefix (five characters), the ASCII signature characters, and a trailing
NUL. -/
theorem C5_amended_signature_encode (offset : Nat) :
    Signature.encode ⟨sigASV⟩ offset = [0x05, 0x61, 0x7B, 0x73, 0x76, 0x7D, 0x00] := rfl

/-- C6: encoding the string `hello` at offset 0 produces exactly the bytes
`05 00 00 00 68 65 6C 6C 6F 00` (little-endian 4-byte length prefix, UTF-8
payload, trailing NUL), and decoding those bytes against signature `s`
returns `hello`. -/
theorem C6_hello_string_roundtrip :
    Str.encode helloBytes 0
      = [0x05, 0x00, 0x00, 0x00, 0x68, 0x65, 0x6C, 0x6C, 0x6F, 0x00] ∧
    Str.decode [0x05, 0x00, 0x00, 0x00, 0x68, 0x65, 0x6C, 0x6C, 0x6F, 0x00] "s"
      = .ok helloBytes := by decide

/-! ## Connection claims -/

/-- A concrete unrelated signal message (no ReplySerial), body `[1]`. -/
def mA : Message := ⟨.Signal, none, none, [1], []⟩

/-- A concrete unrelated signal message (no ReplySerial), body `[2]`. -/
def mB : Message := ⟨.Signal, none, none, [2], []⟩

/-- A concrete signal message carrying ReplySerial 1 (matching but neither
MethodReturn nor Error). -/
def mC : Message := ⟨.Signal, some 1, none, [], []⟩

/-- A concrete Error-typed reply to serial 7, named `com.example.Fail` with
body `[1, 2]`. -/
def merr : Message := ⟨.Error, some 7, some "com.example.Fail", [1, 2], []⟩

/-- A concrete message carrying one file descriptor. -/
def msgFd : Message := ⟨.MethodCall, none, none, [], [3]⟩

/-- C1: the reply delivered by `call_method` has ReplySerial equal to the
sent serial. When the loop observes a matching message, a MethodReturn is
returned as `Ok` (after flushing the temporary queue), an Error fails with
`MethodError` carrying its name and body, and anything else continues the
loop; and any completed run satisfies the correlation spec: an `Ok` result
is a matching MethodReturn, and a `MethodError` result carries the name and
body of a matching Error message observed among the sources of the run. -/
theorem C1_call_method_reply_correlation (serial maxQ : Nat)
    (queue q : List Message) (sock s : List SockEvent) (tmp : List Message)
    (m : Message)
    (hp : pollNext queue sock = (.ready (some (.ok m)), q, s))
    (hm : m.replySerial = some serial) :
    (callLoop serial maxQ queue sock tmp =
      match m.msgType with
      | .MethodReturn => ⟨.done (.ok m), q ++ tmp, []⟩
      | .Error => ⟨.done (.error (.MethodError m.errorName m.body)), q ++ tmp, []⟩
      | _ => callLoop serial maxQ (q ++ tmp) s []) ∧
    (∀ r, (callMethodWait serial maxQ queue sock).result = .done r →
      doneSpec serial queue [] sock r) := by
  constructor
  · cases hmt : m.msgType with
    | MethodReturn => exact callLoop_eq_matchReturn serial maxQ tmp hp hm hmt
    | Error => exact callLoop_eq_matchError serial maxQ tmp hp hm hmt
    | Invalid =>
      exact callLoop_eq_matchOther serial maxQ tmp hp hm
        (by simp [hmt]) (by simp [hmt])
    | MethodCall =>
      exact callLoop_eq_matchOther serial maxQ tmp hp hm
        (by simp [hmt]) (by simp [hmt])
    | Signal =>
      exact callLoop_eq_matchOther serial maxQ tmp hp hm
        (by simp [hmt]) (by simp [hmt])
  · exact fun r h => callLoop_done_spec serial maxQ queue sock [] r h

/-- Witness for C1: a run in which the socket delivers an Error-typed reply
to serial 7; the loop fails with `MethodError` carrying its name and body,
and the correlation spec holds for that completed run. -/
theorem C1_witness :
    (callLoop 7 64 [] [SockEvent.msg merr] [] =
      ⟨.done (.error (.MethodError (some "com.example.Fail") [1, 2])), [] ++ [], []⟩) ∧
    doneSpec 7 [] [] [SockEvent.msg merr]
      (.error (.MethodError (some "com.example.Fail") [1, 2])) := by
  have hthm := C1_call_method_reply_correlation 7 64 [] [] [SockEvent.msg merr] [] []
    merr rfl rfl
  refine ⟨hthm.1, hthm.2 _ ?_⟩
  have h := hthm.1
  rw [callMethodWait, h]
  rfl

/-- C2: the claim states that two messages deposited into the in-queue in
the order m1 then m2 are yielded by the stream in that order. This is false:
`poll_next` pops the in-queue with `Vec::pop`, which removes the **last**
element, so the queue is served newest-first. With `mA` deposited before
`mB`, the first poll yields `mB`. -/
theorem C2_cx_in_queue_is_lifo :
    pollNext [mA, mB] [] = (.ready (some (.ok mB)), [mA], []) ∧
    pollNext [mA] [] = (.ready (some (.ok mA)), [], []) ∧
    mB ≠ mA := by decide

/-- C2 (amended): the stream serves the in-queue before attempting
`try_receive_message`, but in LIFO order — a poll yields the most recently
deposited message first; only with an empty in-queue does it read the
socket, whose messages are yielded in arrival order. -/
theorem C2_amended_queue_lifo_then_socket (q : List Message) (m m2 : Message)
    (sock rest : List SockEvent) :
    pollNext (q ++ [m]) sock = (.ready (some (.ok m)), q, sock) ∧
    pollNext [] (.msg m2 :: rest) = (.ready (some (.ok m2)), [], rest) :=
  ⟨pollNext_concat q m sock, rfl⟩

/-- C3: during `call_method`, a received non-matching message is retained
precisely when the in-queue length (zero at a socket receive, since the
queue is drained first) plus the number drained so far is below
`max_queued`, and is dropped silently otherwise while the loop continues;
consequently a run that starts within the bound leaves the in-queue no
longer than `max_queued`. -/
theorem C3_in_queue_bounded (serial maxQ : Nat) (queue : List Message)
    (sock : List SockEvent) (tmp : List Message) (m : Message)
    (rest : List SockEvent)
    (hnm : m.replySerial ≠ some serial)
    (hinit : queue.length + tmp.length ≤ maxQ) :
    (callLoop serial maxQ [] (.msg m :: rest) tmp =
      callLoop serial maxQ [] rest (if tmp.length < maxQ then tmp ++ [m] else tmp)) ∧
    (callLoop serial maxQ queue sock tmp).queue.length ≤ maxQ := by
  constructor
  · have h := callLoop_eq_nonMatching serial maxQ tmp (pollNext_nil_msg m rest) hnm
    rw [h]
    simp only [List.length_nil, Nat.zero_add]
  · have h := callLoop_queue_le serial maxQ queue sock tmp
    omega

/-- Witness for C3: a non-matching signal received with the bound not yet
reached is retained; a run starting with one queued message and bound 2
ends with at most 2 queued messages. -/
theorem C3_witness :
    (callLoop 1 2 [] [SockEvent.msg mB] [] =
      callLoop 1 2 [] []
        (if List.length ([] : List Message) < 2 then [] ++ [mB] else [])) ∧
    (callLoop 1 2 [mA] [SockEvent.closed] []).queue.length ≤ 2 :=
  C3_in_queue_bounded 1 2 [mA] [SockEvent.closed] [] mB [] (by decide) (by decide)

/-- C7: when `try_receive_message` reports `BrokenPipe` (the peer closed
the socket), the stream returns end-of-stream (`Ready none`, not an error),
and a `call_method` still awaiting its reply at that point fails with
`Io(BrokenPipe)`. -/
theorem C7_broken_pipe_ends_stream (serial maxQ : Nat) (tmp : List Message)
    (rest : List SockEvent) :
    pollNext [] (.closed :: rest) = (.ready none, [], rest) ∧
    callLoop serial maxQ [] (.closed :: rest) tmp =
      ⟨.done (.error (.Io .BrokenPipe)), [], tmp⟩ :=
  ⟨rfl, callLoop_eq_endOfStream serial maxQ tmp (pollNext_nil_closed rest)⟩

/-- C8: sending a message that carries file descriptors on a connection
whose handshake did not negotiate fd-passing (`cap_unix_fd` false) fails
with `Unsupported`, and the outbound buffer is unchanged — the check in
`start_send` precedes `enqueue_message`. -/
theorem C8_fd_passing_unsupported (msg : Message) (outbound : List Message)
    (h : msg.fds ≠ []) :
    start_send false msg outbound = (.error .Unsupported, outbound) := by
  rw [start_send, if_pos ⟨h, rfl⟩]

/-- Witness for C8: a message carrying fd 3 on a connection without the
fd-passing capability. -/
theorem C8_witness : start_send false msgFd [] = (.error .Unsupported, []) :=
  C8_fd_passing_unsupported msgFd [] (by decide)

/-- C9: the claim states that at every suspension point, and when
`call_method` fails before a match, the non-matching messages it drained are
present in the in-queue. This is false: they are held in the local
`tmp_queue`, which is appended to the in-queue only when a matching reply
is observed. Concretely, after draining the unrelated signal `mA` (well
within the bound of 64) the loop suspends with the in-queue empty. -/
theorem C9_cx_drained_message_not_queued :
    (callLoop 1 64 [] [SockEvent.msg mA] []).result = .suspended ∧
    (callLoop 1 64 [] [SockEvent.msg mA] []).tmp = [mA] ∧
    (callLoop 1 64 [] [SockEvent.msg mA] []).queue = [] ∧
    mA ∉ (callLoop 1 64 [] [SockEvent.msg mA] []).queue := by
  have h : callLoop 1 64 [] [SockEvent.msg mA] [] = ⟨.suspended, [], [mA]⟩ := by
    simp [callLoop, pollNext, popVec, mA]
  rw [h]
  exact ⟨rfl, rfl, rfl, by simp⟩

/-- C9 (amended): messages drained by a pending `call_method` are held in
its private `tmp_queue`, not the in-queue: at a suspension point (empty
in-queue, exhausted socket) and at every failure before a match (broken
pipe or a propagated stream error) the drained messages sit in the
temporary queue and the in-queue gains nothing; they reach the in-queue
only when a matching reply is observed. -/
theorem C9_amended_drained_held_privately (serial maxQ : Nat)
    (tmp : List Message) (rest : List SockEvent) (e : Nat) :
    callLoop serial maxQ [] [] tmp = ⟨.suspended, [], tmp⟩ ∧
    callLoop serial maxQ [] (.closed :: rest) tmp =
      ⟨.done (.error (.Io .BrokenPipe)), [], tmp⟩ ∧
    callLoop serial maxQ [] (.fail e :: rest) tmp =
      ⟨.done (.error (.Recv e)), [], tmp⟩ :=
  ⟨callLoop_eq_pending serial maxQ tmp pollNext_nil_nil,
   callLoop_eq_endOfStream serial maxQ tmp (pollNext_nil_closed rest),
   callLoop_eq_streamError serial maxQ tmp (pollNext_nil_fail e rest)⟩

/-- C10: when `call_method` receives a message whose ReplySerial matches the
sent serial but whose type is neither MethodReturn nor Error, it flushes the
drained messages into the in-queue, silently discards the matching message
(neither returned nor queued), and continues waiting. -/
theorem C10_matching_other_type_discarded (serial maxQ : Nat)
    (tmp : List Message) (m : Message) (rest : List SockEvent)
    (hm : m.replySerial = some serial)
    (h1 : m.msgType ≠ .Error) (h2 : m.msgType ≠ .MethodReturn) :
    callLoop serial maxQ [] (.msg m :: rest) tmp =
      callLoop serial maxQ tmp rest [] := by
  have h := callLoop_eq_matchOther serial maxQ tmp (pollNext_nil_msg m rest) hm h1 h2
  simpa using h

/-- Witness for C10: a signal carrying ReplySerial 1 flushes the temporary
queue (here holding `mA`) into the in-queue and is itself discarded. -/
theorem C10_witness :
    callLoop 1 64 [] [SockEvent.msg mC] [mA] = callLoop 1 64 [mA] [] [] :=
  C10_matching_other_type_discarded 1 64 [mA] mC [] (by decide) (by decide) (by decide)
